import Mathlib

/-!
# Verification of the `glob` pattern matcher

Shallow embedding of the Go package `github.com/komem3/glob`
(files `glob.go` and `bracket.go`) and proofs about it.

Conventions of the embedding:

* A Go `rune` is modelled as a `Nat` code point.  Go's
  `utf8.RuneError` (U+FFFD) is `runeError`.
* A Go string value, as seen by the matcher, is modelled by the sequence of
  runes that decoding it yields (`List Nat`); positions at which decoding
  fails appear as `runeError` elements.  A `[]byte` value is a `List Nat`
  of bytes.  An `io.RuneReader` is modelled by the finite sequence of runes
  it yields before its first error or EOF.
* The linked `state` chain built by `Compile` (glob.go:96-100) is modelled
  as a `List Step`: the distinguished terminal state (`matchedKind`, whose
  match function is `alwaysFalse` and whose `next` is nil) is the empty
  list, and a pointer into the chain is a suffix of the list.
* Go's `i += end` skips inside loops are modelled by a `skip : Nat`
  argument so that every recursion is structural.
-/

namespace Glob

/-- `utf8.RuneError` (U+FFFD), the replacement character.  A Go `rune`
is modelled throughout as a `Nat` code point. -/
def runeError : Nat := 0xFFFD

/-- One inclusive character range of a bracket expression
(`charRange`, bracket.go:14-17). -/
structure CharRange where
  startPoint : Nat
  endPoint : Nat
deriving DecidableEq, Repr

/-- A compiled bracket expression (`bracket`, bracket.go:8-12). -/
structure Bracket where
  nonMatch : Bool
  charRanges : List CharRange
  runes : List Nat
deriving DecidableEq, Repr

/-- The member-rune loop of `bracket.match` (bracket.go:134-139). -/
def matchRunesLoop (nonMatch : Bool) (r : Nat) : List Nat → Bool
  | br :: rest => if br = r then !nonMatch else matchRunesLoop nonMatch r rest
  | [] => nonMatch

/-- The range-scanning loop of `bracket.match` (bracket.go:129-133):
the first range containing `r` returns `!nonMatch`, otherwise fall
through to the member-rune loop. -/
def matchRangesLoop (nonMatch : Bool) (r : Nat) (rs : List Nat) : List CharRange → Bool
  | cr :: rest =>
    if cr.startPoint ≤ r ∧ cr.endPoint ≥ r then !nonMatch
    else matchRangesLoop nonMatch r rs rest
  | [] => matchRunesLoop nonMatch r rs

/-- `bracket.match` (bracket.go:128-140). -/
def Bracket.match (b : Bracket) (r : Nat) : Bool :=
  matchRangesLoop b.nonMatch r b.runes b.charRanges

/-! ## `characterClass` (bracket.go:73-126)

Rune constants used below (ASCII code points):
`'\t' = 9`, `'\n' = 10`, `'\v' = 11`, `'\f' = 12`, `'\r' = 13`,
`' ' = 32`, `'!' = 33`, `'-' = 45`, `'/' = 47`, `'0' = 48`, `'9' = 57`,
`':' = 58`, `'@' = 64`, `'A' = 65`, `'F' = 70`, `'Z' = 90`, `'[' = 91`,
`'\\' = 92`, `']' = 93`, `'^' = 94`, `'a' = 97`, `'f' = 102`, `'z' = 122`,
`'{' = 123`, `'~' = 126`, `'?' = 63`, `'*' = 42`.
The backquote is 96 and `'\x7F'` is 127.
-/

/-- Compilation errors.  Go returns `error` values built with
`fmt.Errorf`; we classify them by the message they carry. -/
inductive CompileError where
  /-- glob.go:191 / bracket.go:45: "there is no ']' corresponding to '['". -/
  | unterminatedBracket
  /-- bracket.go:28,32: the argument is not of the shape "[ ... ]". -/
  | invalidBracket
  /-- bracket.go:125: "unexpected syntax": unrecognized `[: ... :]` token. -/
  | invalidCharClass
deriving DecidableEq, Repr

/-- `characterClass` (bracket.go:73-126): the fixed expansions of the
named classes.  The argument is the full `[: ... :]` token. -/
def characterClass (pattern : List Nat) : Except CompileError (List CharRange × List Nat) :=
  -- "[:alnum:]"
  if pattern = [91, 58, 97, 108, 110, 117, 109, 58, 93] then
    .ok ([⟨48, 57⟩, ⟨97, 122⟩, ⟨65, 90⟩], [])
  -- "[:alpha:]"
  else if pattern = [91, 58, 97, 108, 112, 104, 97, 58, 93] then
    .ok ([⟨97, 122⟩, ⟨65, 90⟩], [])
  -- "[:blank:]"
  else if pattern = [91, 58, 98, 108, 97, 110, 107, 58, 93] then
    .ok ([⟨9, 9⟩], [32])
  -- "[:cntrl:]"
  else if pattern = [91, 58, 99, 110, 116, 114, 108, 58, 93] then
    .ok ([⟨0, 31⟩], [127])
  -- "[:digit:]"
  else if pattern = [91, 58, 100, 105, 103, 105, 116, 58, 93] then
    .ok ([⟨48, 57⟩], [])
  -- "[:graph:]"
  else if pattern = [91, 58, 103, 114, 97, 112, 104, 58, 93] then
    .ok ([⟨33, 126⟩], [])
  -- "[:lower:]"
  else if pattern = [91, 58, 108, 111, 119, 101, 114, 58, 93] then
    .ok ([⟨97, 122⟩], [])
  -- "[:print:]"
  else if pattern = [91, 58, 112, 114, 105, 110, 116, 58, 93] then
    .ok ([⟨32, 126⟩], [])
  -- "[:punct:]" — bracket.go:111 returns these twelve member runes
  -- (including literal '-' characters), not ranges.
  else if pattern = [91, 58, 112, 117, 110, 99, 116, 58, 93] then
    .ok ([], [33, 45, 47, 58, 45, 64, 91, 45, 96, 123, 45, 126])
  -- "[:space:]"
  else if pattern = [91, 58, 115, 112, 97, 99, 101, 58, 93] then
    .ok ([], [9, 10, 11, 12, 13, 32])
  -- "[:upper:]"
  else if pattern = [91, 58, 117, 112, 112, 101, 114, 58, 93] then
    .ok ([⟨65, 90⟩], [])
  -- "[:xdigit:]"
  else if pattern = [91, 58, 120, 100, 105, 103, 105, 116, 58, 93] then
    .ok ([⟨48, 57⟩, ⟨97, 102⟩, ⟨65, 70⟩], [])
  else .error .invalidCharClass

/-! ## `indexCloseSquare` (glob.go:228-252)

The Go function ranges over a string; its indices are byte offsets.  The
embedding works on the rune sequence, so indices are rune offsets; the two
agree whenever the scanned region consists of single-byte (ASCII) runes,
which covers every input the theorems below evaluate it on. -/

/-- The loop of `indexCloseSquare`.  Arguments mirror the Go locals:
current index `i`, `escape`, `match` flag and `matchIndex`.  `none` is
Go's `-1`.  Note the loop returns `matchIndex` only when an iteration
runs after the flag was set: when the candidate `]` is the final
character, the function falls through to `return -1` (glob.go:251). -/
def indexCloseSquareLoop : List Nat → Nat → Bool → Bool → Nat → Option Nat
  | [], _, _, _, _ => none
  | r :: rest, i, escape, mtch, matchIndex =>
    if mtch then (if r = 93 then some i else some matchIndex)
    else if escape = false ∧ r = 92 then
      indexCloseSquareLoop rest (i + 1) true false matchIndex
    else if escape = false ∧ r = 93 then
      indexCloseSquareLoop rest (i + 1) false true i
    else
      indexCloseSquareLoop rest (i + 1) false false matchIndex

/-- `indexCloseSquare` (glob.go:228-252). -/
def indexCloseSquare (str : List Nat) : Option Nat :=
  indexCloseSquareLoop str 0 false false 0

/-! ## `newBracket` (bracket.go:25-71)

This in-repository bracket sub-compiler is not called by `Compile`
(glob.go delegates bracket substrings to Go's `regexp` package); it is
embedded here because it is part of the repository's data model. -/

/-- The loop of `newBracket` over the bracket's inner runes.  `skip`
models the Go `i += closeIndex` / `i += 2` jumps; `first` is true
exactly when the Go index `i` is `0`. -/
def newBracketLoop : List Nat → Nat → Bool → Bracket → Except CompileError Bracket
  | [], _, _, b => .ok b
  | _ :: rest, skip + 1, _, b => newBracketLoop rest skip false b
  | r :: rest, 0, first, b =>
    if r = 94 ∧ first then
      newBracketLoop rest 0 false { b with nonMatch := true }
    else if r = 91 then
      match indexCloseSquare (r :: rest) with
      | none => .error .unterminatedBracket
      | some closeIndex =>
        match characterClass ((r :: rest).take (closeIndex + 1)) with
        | .error e => .error e
        | .ok (rang, rs) =>
          newBracketLoop rest closeIndex false
            { b with charRanges := b.charRanges ++ rang, runes := b.runes ++ rs }
    else
      -- `i+2 < len(pattern) && pattern[i+1] == '-'` (bracket.go:60)
      match rest with
      | hy :: c :: _ =>
        if hy = 45 then
          newBracketLoop rest 2 false
            { b with charRanges := b.charRanges ++ [⟨r, c⟩] }
        else newBracketLoop rest 0 false { b with runes := b.runes ++ [r] }
      | _ => newBracketLoop rest 0 false { b with runes := b.runes ++ [r] }

/-- `newBracket` (bracket.go:25-71). -/
def newBracket (pattern : List Nat) : Except CompileError Bracket :=
  if pattern.length < 2 then .error .invalidBracket
  else
    let inner := (pattern.drop 1).dropLast
    if inner.isEmpty then .error .invalidBracket
    else newBracketLoop inner 0 true ⟨false, [], []⟩

/-! ## The bracket capability consumed by `Compile`

`Compile` (glob.go:193) passes the bracket substring to `regexp.Compile`,
which is part of the Go standard library, not of this repository.  Only
the bracket-expression subset of the regexp grammar can reach that call. -/

/-- Scan for the `:]` that closes a `[: ... :]` named-class token,
returning the name and the remainder. -/
def splitColonClose : List Nat → Option (List Nat × List Nat)
  | 58 :: 93 :: rest => some ([], rest)
  | r :: rest =>
    match splitColonClose rest with
    | none => none
    | some (name, rest') => some (r :: name, rest')
  | [] => none

/-- Modelled from the spec: the bracket sub-compiler capability that
glob.go:193 obtains from Go's `regexp` package (code outside this
repository).  Spec section 4.2: a leading `^` negates; `[: ... :]`
named-class tokens expand to the fixed class tables (shared with
`characterClass` above); `a-b` is a three-character range; anything else
is a literal member; an unclosed named-class token is an unterminated
bracket and an unrecognized class name is an invalid class. -/
def bracketEntriesLoop : List Nat → Nat → Bool → Bracket → Except CompileError Bracket
  | [], _, _, b => .ok b
  | _ :: rest, skip + 1, _, b => bracketEntriesLoop rest skip false b
  | 94 :: rest, 0, true, b => bracketEntriesLoop rest 0 false { b with nonMatch := true }
  | 91 :: 58 :: rest, 0, _, b =>
    (match splitColonClose rest with
     | none => .error .unterminatedBracket
     | some (name, _) =>
       match characterClass (91 :: 58 :: (name ++ [58, 93])) with
       | .error e => .error e
       | .ok (rang, rs) =>
         -- continue right after the token: skip the name and its ":]"
         bracketEntriesLoop rest (name.length + 2) false
           { b with charRanges := b.charRanges ++ rang, runes := b.runes ++ rs })
  | a :: 45 :: c :: rest, 0, _, b =>
    bracketEntriesLoop rest 0 false { b with charRanges := b.charRanges ++ [⟨a, c⟩] }
  | r :: rest, 0, _, b => bracketEntriesLoop rest 0 false { b with runes := b.runes ++ [r] }

/-- Modelled from the spec: `compileBracket` (spec section 4.2), standing
in for glob.go:193's call to the external `regexp.Compile` on the bracket
substring (outer delimiters included). -/
def compileBracket (pattern : List Nat) : Except CompileError Bracket :=
  if pattern.length < 2 then .error .invalidBracket
  else bracketEntriesLoop ((pattern.drop 1).dropLast) 0 true ⟨false, [], []⟩

/-! ## The compiled step chain (`state`, glob.go:83-100)

`Compile` builds a singly linked chain of `state` nodes.  The chain is
modelled as a `List Step`; the terminal `matchedKind` node
(glob.go:206, with match function `alwaysFalse` and nil `next`) is the
empty list, and a pointer to a node of the chain is the suffix of the
list starting at that node.  A `regexKind` node stores the compiled
bracket (its Go `match` closure is `Bracket.match` of that bracket). -/
inductive Step where
  /-- `runeKind` with `runeMatchFunc target` (glob.go:122-126, 201). -/
  | runeS (target : Nat)
  /-- `asteriskKind` (glob.go:180); its match function is nil. -/
  | asteriskS
  /-- `questionKind` with `alwaysTrue` (glob.go:186). -/
  | questionS
  /-- `regexKind` (glob.go:197) holding the compiled bracket predicate. -/
  | regexS (b : Bracket)
deriving DecidableEq, Repr

/-- A compiled glob (`Glob`, glob.go:145-150) without its `str` field
(which only feeds `String()`): the step chain and the strategy choice.
`useDFA = false` corresponds to `onePassState != nil`. -/
structure GlobM where
  steps : List Step
  useDFA : Bool
deriving DecidableEq, Repr

/-- The loop of `Compile` (glob.go:170-205).  `skip` models the
`i += end` jump of the bracket arm (glob.go:199); `escape` is the Go
`escape` flag; `lastAst` is true exactly when `patternState.kind ==
asteriskKind`.  Returns the steps emitted by the remaining runes and
the `useDFA` flag contribution; an asterisk emitted while runes remain
after it sets `useDFA` (glob.go:182-184). -/
def compileLoop : List Nat → Nat → Bool → Bool → Except CompileError (List Step × Bool)
  | [], _, _, _ => .ok ([], false)
  | _ :: rest, skip + 1, escape, lastAst => compileLoop rest skip escape lastAst
  | r :: rest, 0, escape, lastAst =>
    if escape = false ∧ r = 92 then
      compileLoop rest 0 true lastAst
    else if escape = false ∧ r = 42 then
      -- convert multi asterisk to one. ** -> * (glob.go:177-179)
      if lastAst then compileLoop rest 0 false true
      else
        match compileLoop rest 0 false true with
        | .error e => .error e
        | .ok (steps, dfa) => .ok (.asteriskS :: steps, dfa || !rest.isEmpty)
    else if escape = false ∧ r = 63 then
      match compileLoop rest 0 false false with
      | .error e => .error e
      | .ok (steps, dfa) => .ok (.questionS :: steps, dfa)
    else if escape = false ∧ r = 91 then
      match indexCloseSquare (r :: rest) with
      | none => .error .unterminatedBracket
      | some e =>
        match compileBracket ((r :: rest).take (e + 1)) with
        | .error err => .error err
        | .ok b =>
          match compileLoop rest e false false with
          | .error err => .error err
          | .ok (steps, dfa) => .ok (.regexS b :: steps, dfa)
    else
      match compileLoop rest 0 false false with
      | .error e => .error e
      | .ok (steps, dfa) => .ok (.runeS r :: steps, dfa)

/-- `Compile` (glob.go:162-226).  The pattern is given as its rune
sequence (`[]rune(pattern)`, glob.go:164). -/
def Compile (pattern : List Nat) : Except CompileError GlobM :=
  match compileLoop pattern 0 false false with
  | .error e => .error e
  | .ok (steps, useDFA) => .ok ⟨steps, useDFA⟩

/-! ## The one-pass matcher (`Glob.onePassMatch`, glob.go:254-266)

The loop `for r := steper.step(); r != utf8.RuneError; r = steper.step()`
is embedded with the stepper inlined: the input is the rune sequence the
stepper yields, and the `r != utf8.RuneError` exit test is the
`r = runeError` check below. -/

/-- The value of `state.kind == asteriskKind || state.kind == matchedKind`
(glob.go:265) for a chain suffix. -/
def acceptState : List Step → Bool
  | [] => true
  | .asteriskS :: _ => true
  | _ => false

/-- `Glob.onePassMatch` (glob.go:254-266). -/
def onePassMatch : List Step → List Nat → Bool
  | steps, [] => acceptState steps
  | steps, r :: input =>
    if r = runeError then acceptState steps
    else
      match steps with
      | .asteriskS :: _ => true
      | [] => false                       -- matchedKind: alwaysFalse
      | .questionS :: rest => onePassMatch rest input
      | .runeS t :: rest => if t = r then onePassMatch rest input else false
      | .regexS b :: rest => if b.match r then onePassMatch rest input else false

/-! ## The DFA matcher (`Glob.dfaMatch`, glob.go:268-320)

`dfaState.list` and `dfaState.asteriskNexts` hold pointers into the step
chain: lists of suffixes.  The memo table `dfaState.next` caches, per
rune, the transition computed from that state, and the whole memoized
automaton survives across calls through `g.dfaPool` (the start state is
`Put` back on every return path).

The memoized automaton is NOT behavior-preserving across calls: at
glob.go:284 `asteriskNexts := dfa.asteriskNexts` copies a slice header,
and the `append` at glob.go:295 writes into that slice's backing array
in place whenever spare capacity exists.  A previously memoized
successor state holds a longer slice over the same backing array, so a
later transition computed from the same state on a different rune
overwrites an element that successor still reads: results become
history-dependent (see `dfaMatch` below and the C1 counterexample).

Two models are therefore given:

* value-level functions (`dfaStepLoop`, `dfaLoopFresh`,
  `dfaMatchFresh`): the semantics of one `Glob.dfaMatch` call executed
  on a fresh automaton with an empty memo, which is what `dfaPool.Get`
  supplies whenever the pool is empty (`sync.Pool` may drop its
  contents at any time).  Within a single such call each state computes
  at most one slice-extending transition (the memo graph is a DAG plus
  self-loops, and self-loop transitions perform no append), so no
  in-place overwrite can corrupt a state reachable later in the same
  call and the value semantics is exact for it;
* a heap-level model (`DfaHeap`, `dfaLoop`, `dfaMatch`) with explicit
  backing arrays, slice capacity, Go's append growth, and the memo,
  threaded through sequences of calls that share the pooled automaton. -/

/-- `state.match(r)` for a chain suffix in a live set (glob.go:288).
`matchedKind` carries `alwaysFalse`.  An `asteriskKind` node has a nil
match function in Go; live sets never contain one (`list` receives only
non-asterisk successors, glob.go:289-298, and `asteriskNexts` receives
`state.next.next` which collapsing keeps non-asterisk). -/
def stateMatch : List Step → Nat → Bool
  | [], _ => false
  | .runeS t :: _, r => t = r
  | .questionS :: _, _ => true
  | .regexS b :: _, r => b.match r
  | .asteriskS :: _, _ => false

/-- The inner loop over `[][]*state{dfa.list, dfa.asteriskNexts}`
(glob.go:286-301).  `none` models the early `return true` at
glob.go:291-294 (a matching state whose successor is a trailing
asterisk immediately followed by the terminal). -/
def dfaStepLoop (r : Nat) :
    List (List Step) → List (List Step) → List (List Step) →
    Option (List (List Step) × List (List Step))
  | [], nlist, astNexts => some (nlist, astNexts)
  | st :: states, nlist, astNexts =>
    if stateMatch st r then
      match st with
      | _ :: .asteriskS :: tail =>
        if tail.isEmpty then none
        else dfaStepLoop r states nlist (astNexts ++ [tail])
      | _ :: next => dfaStepLoop r states (nlist ++ [next]) astNexts
      | [] => dfaStepLoop r states (nlist ++ [[]]) astNexts
    else dfaStepLoop r states nlist astNexts

/-- `(st.kind == asteriskKind && st.next.kind == matchedKind) ||
st.kind == matchedKind` (glob.go:312-313). -/
def finalState (st : List Step) : Bool :=
  st.isEmpty || (match st with | .asteriskS :: tail => tail.isEmpty | _ => false)

/-- The end-of-input scan over `dfa.list` (glob.go:311-319);
`asteriskNexts` is not scanned. -/
def finalCheck (list : List (List Step)) : Bool :=
  list.any finalState

/-- The outer loop of `Glob.dfaMatch` (glob.go:272-309), as executed on
a fresh automaton (empty memo): every transition is computed directly.
This is the per-call semantics when `dfaPool.Get` allocates anew, and —
by the write-once argument in the section comment — of any single call
on a fresh automaton, memoization included. -/
def dfaLoopFresh : List (List Step) → List (List Step) → List Nat → Bool
  | list, _, [] => finalCheck list
  | list, astNexts, r :: input =>
    if r = runeError then finalCheck list
    else if list.isEmpty ∧ astNexts.isEmpty then false
    else
      match dfaStepLoop r (list ++ astNexts) [] astNexts with
      | none => true
      | some (nlist, nastNexts) => dfaLoopFresh nlist nastNexts input

/-- One `Glob.dfaMatch` call (glob.go:268-320) on a fresh automaton,
including the initial state built by the pool's `New` (glob.go:213-221):
a chain that begins with an asterisk seeds `asteriskNexts` with its
successor, otherwise `list` is seeded with the chain head. -/
def dfaMatchFresh (steps : List Step) (input : List Nat) : Bool :=
  match steps with
  | .asteriskS :: tail => dfaLoopFresh [] [tail] input
  | _ => dfaLoopFresh [steps] [] input

/-- Strategy dispatch shared by `Match`, `MatchString` and `MatchReader`
(glob.go:329-332, 342-345, 355-358): `onePassState != nil` selects the
one-pass matcher, otherwise the DFA (fresh-automaton semantics; the
pooled memo makes the DFA result history-dependent, see `dfaMatch`). -/
def globMatch (g : GlobM) (input : List Nat) : Bool :=
  if g.useDFA then dfaMatchFresh g.steps input else onePassMatch g.steps input

/-! ### The pooled automaton, heap-level

Go slice values are `(array, length, capacity)` triples; `append`
writes in place at index `len` when `len < cap` and otherwise allocates
a bigger array (for these pointer-element slices the runtime grows the
capacity from 0 to 1 and then doubles it).  Only the `asteriskNexts`
slices need the heap treatment: `dfa.list` is filled from an `nlist`
that starts `nil` in every transition (glob.go:283) and is never
appended to afterwards, while `asteriskNexts` starts from the current
state's slice (glob.go:284) and is extended in place at glob.go:295. -/

/-- A Go slice handle over `DfaHeap.arrays` (these slices always start
at offset 0 of their backing array, being built by `append` alone). -/
structure GoSlice where
  aid : Nat
  len : Nat
  cap : Nat
deriving DecidableEq, Repr

/-- One `dfaState` (glob.go:102-106): the live list, the asterisk
continuations slice, and the memo `next` as an association list (each
rune is inserted at most once, on the miss that computes it). -/
structure DfaNode where
  list : List (List Step)
  asteriskNexts : GoSlice
  next : List (Nat × Nat)
deriving DecidableEq, Repr

/-- The mutable store of a pooled automaton: the slice backing arrays
and the `dfaState` nodes, addressed by index.  Node 0 is the start
state the pool hands out. -/
structure DfaHeap where
  arrays : List (List (List Step))
  nodes : List DfaNode
deriving DecidableEq, Repr

def emptyNode : DfaNode := ⟨[], ⟨0, 0, 0⟩, []⟩

/-- The runes a slice currently denotes: the first `len` cells of its
backing array. -/
def readSliceH (h : DfaHeap) (s : GoSlice) : List (List Step) :=
  (h.arrays.getD s.aid []).take s.len

/-- Go's append capacity growth for a one-element extension of a small
pointer slice (`runtime.growslice`): 0 becomes 1, otherwise double. -/
def growCap (c : Nat) : Nat := if c = 0 then 1 else 2 * c

/-- Go `append(s, v)` on the heap: in place into spare capacity when
`len < cap` — the write every longer slice over the same backing array
observes — otherwise into a fresh, larger array.  Cells beyond the new
length are padding that no slice ever reads. -/
def appendH (h : DfaHeap) (s : GoSlice) (v : List Step) : DfaHeap × GoSlice :=
  if s.len < s.cap then
    ({ h with arrays := h.arrays.set s.aid ((h.arrays.getD s.aid []).set s.len v) },
     ⟨s.aid, s.len + 1, s.cap⟩)
  else
    let newcap := growCap s.cap
    let content := readSliceH h s ++ [v]
    let arr := content ++ List.replicate (newcap - content.length) []
    ({ h with arrays := h.arrays ++ [arr] }, ⟨h.arrays.length, s.len + 1, newcap⟩)

def memoFind (r : Nat) : List (Nat × Nat) → Option Nat
  | [] => none
  | (k, v) :: rest => if k = r then some v else memoFind r rest

/-- `dfa.next[r] = target` (glob.go:303, 307). -/
def setMemo (h : DfaHeap) (id r target : Nat) : DfaHeap :=
  let node := h.nodes.getD id emptyNode
  { h with nodes := h.nodes.set id { node with next := node.next ++ [(r, target)] } }

/-- The inner loop (glob.go:286-301) with the `asteriskNexts` appends
performed on the heap.  The iterated snapshot is read before the loop:
in-loop appends only write at indices at or beyond the iterated slice's
length, so Go's `range` never observes them. -/
def dfaStepLoopH : DfaHeap → Nat → List (List Step) → List (List Step) → GoSlice →
    DfaHeap × Option (List (List Step) × GoSlice)
  | h, _, [], nlist, astS => (h, some (nlist, astS))
  | h, r, st :: states, nlist, astS =>
    if stateMatch st r then
      match st with
      | _ :: .asteriskS :: tail =>
        if tail.isEmpty then (h, none)
        else
          let p := appendH h astS tail
          dfaStepLoopH p.1 r states nlist p.2
      | _ :: next => dfaStepLoopH h r states (nlist ++ [next]) astS
      | [] => dfaStepLoopH h r states (nlist ++ [[]]) astS
    else dfaStepLoopH h r states nlist astS

/-- Result of one character of `Glob.dfaMatch`: move to a (cached or
newly created) state, the early `return true` (glob.go:291-294), or the
`return false` on an empty live set (glob.go:278-281). -/
inductive DfaTrans where
  | goto (id : Nat)
  | matched
  | failed
deriving DecidableEq, Repr

/-- One character of the outer loop (glob.go:273-308): memo lookup
first; on a miss, the empty-set failure, then the transition
computation, the self-loop re-installation when nothing changed
(glob.go:302-305), or a new memoized state (glob.go:306-308).  The
early-true path installs nothing but keeps the appends already made. -/
def dfaStepH (h : DfaHeap) (id r : Nat) : DfaHeap × DfaTrans :=
  let node := h.nodes.getD id emptyNode
  match memoFind r node.next with
  | some target => (h, .goto target)
  | none =>
    if node.list.isEmpty ∧ node.asteriskNexts.len = 0 then (h, .failed)
    else
      match dfaStepLoopH h r (node.list ++ readSliceH h node.asteriskNexts) []
          node.asteriskNexts with
      | (h', none) => (h', .matched)
      | (h', some (nlist, astS)) =>
        if nlist.isEmpty ∧ node.list.isEmpty ∧ astS.len = node.asteriskNexts.len then
          (setMemo h' id r id, .goto id)
        else
          let newId := h'.nodes.length
          let h'' := { h' with nodes := h'.nodes ++ [⟨nlist, astS, []⟩] }
          (setMemo h'' id r newId, .goto newId)

/-- The outer loop of `Glob.dfaMatch` (glob.go:272-319) on the pooled
automaton. -/
def dfaLoop : DfaHeap → Nat → List Nat → DfaHeap × Bool
  | h, id, [] => (h, finalCheck (h.nodes.getD id emptyNode).list)
  | h, id, r :: input =>
    if r = runeError then (h, finalCheck (h.nodes.getD id emptyNode).list)
    else
      match dfaStepH h id r with
      | (h', .goto target) => dfaLoop h' target input
      | (h', .matched) => (h', true)
      | (h', .failed) => (h', false)

/-- The pool's `New` (glob.go:213-221): a fresh automaton whose start
state seeds `asteriskNexts` (via `append` to nil, capacity 1) when the
chain begins with an asterisk, and `list` otherwise. -/
def newDfaState (steps : List Step) : DfaHeap :=
  match steps with
  | .asteriskS :: tail => ⟨[[tail]], [⟨[], ⟨0, 1, 1⟩, []⟩]⟩
  | _ => ⟨[], [⟨[steps], ⟨0, 0, 0⟩, []⟩]⟩

/-- `Glob.dfaMatch` (glob.go:268-320) as called through the pool: the
automaton `Get` returns (`none` models an empty pool, served by `New`),
the run, and the automaton `Put` back on every return path. -/
def dfaMatch (steps : List Step) (pooled : Option DfaHeap) (input : List Nat) :
    Bool × DfaHeap :=
  let h := match pooled with
    | some h => h
    | none => newDfaState steps
  let p := dfaLoop h 0 input
  (p.2, p.1)

/-- Sequential `dfaMatch` calls on one compiled Glob: the first call
finds the pool empty, every later call reuses the automaton the
previous call `Put` back, memo and backing arrays included. -/
def dfaMatchSeq (steps : List Step) : List (List Nat) → Option DfaHeap → List Bool
  | [], _ => []
  | input :: rest, pooled =>
    let p := dfaMatch steps pooled input
    p.1 :: dfaMatchSeq steps rest (some p.2)

/-- Sequential `MatchString` calls on one compiled Glob, boolean
results only (the stepper pools do not influence the booleans): the
DFA strategy shares the pooled memoized automaton across the calls,
the one-pass strategy is stateless. -/
def MatchStringSeq (g : GlobM) (inputs : List (List Nat)) : List Bool :=
  if g.useDFA then dfaMatchSeq g.steps inputs none
  else inputs.map (onePassMatch g.steps)

/-! ## UTF-8 (package `unicode/utf8`, used by the steppers)

`byteStep.step` (glob.go:48-55) decodes the byte buffer with
`utf8.DecodeRune`.  The decoder below reproduces `DecodeRune`'s table:
first bytes `0x00..0x7F` are ASCII; `0x80..0xC1` and `0xF5..0xFF` are
invalid; `0xC2..0xDF` start 2-byte sequences; `0xE0..0xEF` 3-byte
(second byte restricted to `A0..BF` after `E0` and `80..9F` after `ED`);
`0xF0..0xF4` 4-byte (second byte `90..BF` after `F0`, `80..8F` after
`F4`); continuation bytes are `80..BF`.  It returns the decoded code
point and the number of bytes consumed; failures return
`(runeError, 1)` (`(runeError, 0)` on empty input). -/
def decodeRune : List Nat → Nat × Nat
  | [] => (runeError, 0)
  | b0 :: rest =>
    if b0 < 0x80 then (b0, 1)
    else if b0 < 0xC2 then (runeError, 1)
    else if b0 < 0xE0 then
      match rest with
      | b1 :: _ =>
        if 0x80 ≤ b1 ∧ b1 ≤ 0xBF then ((b0 % 0x20) * 0x40 + b1 % 0x40, 2)
        else (runeError, 1)
      | _ => (runeError, 1)
    else if b0 < 0xF0 then
      match rest with
      | b1 :: b2 :: _ =>
        if (if b0 = 0xE0 then 0xA0 else 0x80) ≤ b1 ∧
            b1 ≤ (if b0 = 0xED then 0x9F else 0xBF) ∧
            0x80 ≤ b2 ∧ b2 ≤ 0xBF then
          ((b0 % 0x10) * 0x1000 + (b1 % 0x40) * 0x40 + b2 % 0x40, 3)
        else (runeError, 1)
      | _ => (runeError, 1)
    else if b0 < 0xF5 then
      match rest with
      | b1 :: b2 :: b3 :: _ =>
        if (if b0 = 0xF0 then 0x90 else 0x80) ≤ b1 ∧
            b1 ≤ (if b0 = 0xF4 then 0x8F else 0xBF) ∧
            0x80 ≤ b2 ∧ b2 ≤ 0xBF ∧ 0x80 ≤ b3 ∧ b3 ≤ 0xBF then
          ((b0 % 8) * 0x40000 + (b1 % 0x40) * 0x1000 + (b2 % 0x40) * 0x40 + b3 % 0x40, 4)
        else (runeError, 1)
      | _ => (runeError, 1)
    else (runeError, 1)

/-- `utf8.EncodeRune`: surrogates and out-of-range code points are
encoded as `RuneError`, then the standard 1-4 byte encoding applies. -/
def encodeRune (r : Nat) : List Nat :=
  if r < 0x80 then [r]
  else if r < 0x800 then [0xC0 + r / 0x40, 0x80 + r % 0x40]
  -- out of range and surrogates become RuneError, whose encoding is EF BF BD
  else if r > 0x10FFFF ∨ (0xD800 ≤ r ∧ r ≤ 0xDFFF) then [0xEF, 0xBF, 0xBD]
  else if r < 0x10000 then
    [0xE0 + r / 0x1000, 0x80 + r / 0x40 % 0x40, 0x80 + r % 0x40]
  else
    [0xF0 + r / 0x40000, 0x80 + r / 0x1000 % 0x40, 0x80 + r / 0x40 % 0x40, 0x80 + r % 0x40]

/-- The UTF-8 encoding of a rune sequence (Go `[]byte(s)` for the string
with those runes). -/
def encodeRunes : List Nat → List Nat
  | [] => []
  | r :: rs => encodeRune r ++ encodeRunes rs

/-- A valid Unicode scalar value: what the runes of a well-formed Go
string range over. -/
def ValidScalar (n : Nat) : Prop :=
  n < 0xD800 ∨ (0xE000 ≤ n ∧ n < 0x110000)

instance (n : Nat) : Decidable (ValidScalar n) :=
  inferInstanceAs (Decidable (n < 0xD800 ∨ (0xE000 ≤ n ∧ n < 0x110000)))

/-! ## The input steppers (`steper`, glob.go:23-63)

Each stepper is a `step` capability yielding one rune at a time;
`utf8.RuneError` signals end-of-input.  The match loops consume a
stepper until it yields `RuneError`, so a stepper is characterized by
the rune sequence it yields. -/

/-- `stringStep.step` (glob.go:39-46).  The remaining string is modelled
by its decoded rune sequence (decode failures appearing as `runeError`):
`DecodeRuneInString` returns `RuneError` on the empty string, on a
decode failure, and on a validly encoded U+FFFD, and the stepper then
does not advance. -/
def stringStep : List Nat → Nat × List Nat
  | [] => (runeError, [])
  | r :: rest => if r = runeError then (runeError, r :: rest) else (r, rest)

/-- `byteStep.step` (glob.go:48-55) on the remaining byte buffer. -/
def byteStep (bs : List Nat) : Nat × List Nat :=
  let d := decodeRune bs
  if d.1 = runeError then (runeError, bs) else (d.1, bs.drop d.2)

/-- `readerStep.step` (glob.go:57-63).  The reader is modelled by the
finite sequence of runes it will yield; `ReadRune` errors (EOF included)
yield `RuneError`. -/
def readerStep : List Nat → Nat × List Nat
  | [] => (runeError, [])
  | r :: rest => (r, rest)

/-- The rune sequence a `byteStep` yields from a byte buffer: decode
runes until the first `RuneError` (at which point `byteStep.step`
reports end-of-input forever).  `skip` counts already-consumed bytes of
a multi-byte sequence, making the recursion structural. -/
def byteRunesLoop : List Nat → Nat → List Nat
  | [], _ => []
  | _ :: rest, skip + 1 => byteRunesLoop rest skip
  | b :: rest, 0 =>
    let d := decodeRune (b :: rest)
    if d.1 = runeError then [] else d.1 :: byteRunesLoop rest (d.2 - 1)

/-- The rune sequence decoded from a byte buffer, up to the first
decode failure or encoded U+FFFD. -/
def byteRunes (bs : List Nat) : List Nat := byteRunesLoop bs 0

/-! ## The public match operations (glob.go:322-359)

The pure semantics: each operation runs the selected strategy on the
rune sequence its stepper yields.  For `MatchString` and `MatchReader`
that sequence is the input's rune sequence itself (the match loops stop
at the first `runeError`); for `Match` it is the decoded byte buffer. -/

/-- `Glob.MatchString` (glob.go:335-346), pure semantics. -/
def MatchString (g : GlobM) (s : List Nat) : Bool := globMatch g s

/-- `Glob.Match` (glob.go:322-333), pure semantics.  The Go loop decodes
lazily; since it stops at the first `RuneError` and `byteRunes`
truncates there, running on `byteRunes bs` is the same computation. -/
def Match (g : GlobM) (bs : List Nat) : Bool := globMatch g (byteRunes bs)

/-- `Glob.MatchReader` (glob.go:348-359), pure semantics. -/
def MatchReader (g : GlobM) (stream : List Nat) : Bool := globMatch g stream

/-! ## The stepper pools (glob.go:65-81, 322-359)

`Match`, `MatchString` and `MatchReader` draw their stepper from a
`sync.Pool` and return it with a deferred `Put`.  All three `Put` into
`stringStepPool` (glob.go:327, 340, 353), while `Get` draws from the
pool matching the input kind and type-asserts the result.  The pool is
modelled as a stack of the dynamic types of the pooled objects
(`sync.Pool` may also drop items after a GC; the stack is the behaviour
in which every `Get` receives the most recent `Put`).  Only
`stringStepPool` is modelled: `byteStepPool` and `readerStepPool` never
receive a `Put`, so their `Get` always allocates a fresh object. -/

/-- The dynamic type of an object held by `stringStepPool`. -/
inductive StepObj where
  | strO
  | byteO
  | readerO
deriving DecidableEq, Repr

/-- Outcome of a match call at the resource level: a boolean and the
`stringStepPool` contents after the deferred `Put`, or a runtime panic. -/
inductive EffResult where
  | ok (b : Bool) (pool : List StepObj)
  | panicked
deriving DecidableEq, Repr

/-- `Glob.MatchString` (glob.go:335-346) with the pool effect:
`stringStepPool.Get().(*stringStep)` panics when the pooled object is a
`*byteStep` or `*readerStep` left there by `Match`/`MatchReader`. -/
def MatchStringEff (g : GlobM) (s : List Nat) (pool : List StepObj) : EffResult :=
  match pool with
  | [] => .ok (MatchString g s) [.strO]
  | .strO :: rest => .ok (MatchString g s) (.strO :: rest)
  | _ :: _ => .panicked

/-- `Glob.Match` (glob.go:322-333) with the pool effect: the fresh
`*byteStep` is `Put` into `stringStepPool` (glob.go:327). -/
def MatchEff (g : GlobM) (bs : List Nat) (pool : List StepObj) : EffResult :=
  .ok (Match g bs) (.byteO :: pool)

/-- `Glob.MatchReader` (glob.go:348-359) with the pool effect: the fresh
`*readerStep` is `Put` into `stringStepPool` (glob.go:353). -/
def MatchReaderEff (g : GlobM) (stream : List Nat) (pool : List StepObj) : EffResult :=
  .ok (MatchReader g stream) (.readerO :: pool)

/-- The runes of an input strictly before its first U+FFFD: the part of
the input any stepper delivers before signalling end-of-input. -/
def untilError : List Nat → List Nat
  | [] => []
  | r :: rest => if r = runeError then [] else r :: untilError rest

/-- A step chain that does not begin with a wildcard step. -/
def headNotAst : List Step → Bool
  | .asteriskS :: _ => false
  | _ => true

/-- No two adjacent wildcard steps anywhere in a step chain. -/
def noAdjAst : List Step → Bool
  | .asteriskS :: .asteriskS :: _ => false
  | _ :: rest => noAdjAst rest
  | [] => true

/-! ## Supporting lemmas -/

theorem decode_encode_1 (n : Nat) (h : n < 0x80) (t : List Nat) :
    decodeRune (encodeRune n ++ t) = (n, 1) := by
  have e : encodeRune n = [n] := by
    simp only [encodeRune]; split_ifs <;> first | rfl | (exfalso; omega)
  rw [e]
  simp only [List.cons_append, List.nil_append, decodeRune]
  split_ifs <;> first | rfl | (exfalso; omega)

theorem decode_encode_2 (n : Nat) (h1 : 0x80 ≤ n) (h2 : n < 0x800) (t : List Nat) :
    decodeRune (encodeRune n ++ t) = (n, 2) := by
  have e : encodeRune n = [0xC0 + n / 0x40, 0x80 + n % 0x40] := by
    simp only [encodeRune]; split_ifs <;> first | rfl | (exfalso; omega)
  rw [e]
  simp only [List.cons_append, List.nil_append, decodeRune]
  split_ifs <;> first | (exfalso; omega) | (simp only [Prod.mk.injEq, and_true]; omega)

theorem decode_encode_3 (n : Nat) (h1 : 0x800 ≤ n) (h2 : n < 0x10000)
    (h3 : n < 0xD800 ∨ 0xE000 ≤ n) (t : List Nat) :
    decodeRune (encodeRune n ++ t) = (n, 3) := by
  have e : encodeRune n = [0xE0 + n / 0x1000, 0x80 + n / 0x40 % 0x40, 0x80 + n % 0x40] := by
    simp only [encodeRune]; split_ifs <;> first | rfl | (exfalso; omega)
  rw [e]
  simp only [List.cons_append, List.nil_append, decodeRune]
  split_ifs <;> first | (exfalso; omega) | (simp only [Prod.mk.injEq, and_true]; omega)

theorem decode_encode_4 (n : Nat) (h1 : 0x10000 ≤ n) (h2 : n < 0x110000) (t : List Nat) :
    decodeRune (encodeRune n ++ t) = (n, 4) := by
  have e : encodeRune n =
      [0xF0 + n / 0x40000, 0x80 + n / 0x1000 % 0x40, 0x80 + n / 0x40 % 0x40, 0x80 + n % 0x40] := by
    simp only [encodeRune]; split_ifs <;> first | rfl | (exfalso; omega)
  rw [e]
  simp only [List.cons_append, List.nil_append, decodeRune]
  split_ifs <;> first | (exfalso; omega) | (simp only [Prod.mk.injEq, and_true]; omega)

/-- UTF-8 round trip: decoding the encoding of a valid scalar yields the
scalar back, consuming exactly its encoded length. -/
theorem decode_encode (n : Nat) (h : ValidScalar n) (t : List Nat) :
    decodeRune (encodeRune n ++ t) = (n, (encodeRune n).length) := by
  have hlen1 : n < 0x80 → (encodeRune n).length = 1 := by
    intro hb; simp only [encodeRune]; split_ifs <;> simp
  have hlen2 : 0x80 ≤ n → n < 0x800 → (encodeRune n).length = 2 := by
    intro ha hb; simp only [encodeRune]; split_ifs <;> first | (exfalso; omega) | simp
  have hlen3 : 0x800 ≤ n → n < 0x10000 → ¬(0xD800 ≤ n ∧ n ≤ 0xDFFF) →
      (encodeRune n).length = 3 := by
    intro ha hb hc; simp only [encodeRune]; split_ifs <;> first | (exfalso; omega) | simp
  have hlen4 : 0x10000 ≤ n → n < 0x110000 → (encodeRune n).length = 4 := by
    intro ha hb; simp only [encodeRune]; split_ifs <;> first | (exfalso; omega) | simp
  rcases Nat.lt_or_ge n 0x80 with hb | hb
  · rw [hlen1 hb]; exact decode_encode_1 n hb t
  · rcases Nat.lt_or_ge n 0x800 with hc | hc
    · rw [hlen2 hb hc]; exact decode_encode_2 n hb hc t
    · rcases Nat.lt_or_ge n 0x10000 with hd | hd
      · have hs : n < 0xD800 ∨ 0xE000 ≤ n := by
          rcases h with h | h; exact Or.inl h; exact Or.inr h.1
        rw [hlen3 hc hd (by omega)]; exact decode_encode_3 n hc hd hs t
      · have he : n < 0x110000 := by rcases h with h | h; omega; exact h.2
        rw [hlen4 hd he]; exact decode_encode_4 n hd he t

theorem encodeRune_length_pos (n : Nat) : 1 ≤ (encodeRune n).length := by
  simp only [encodeRune]; split_ifs <;> simp

theorem byteRunesLoop_skip (l t : List Nat) :
    byteRunesLoop (l ++ t) l.length = byteRunesLoop t 0 := by
  induction l with
  | nil => rfl
  | cons x l' ih => simpa only [List.cons_append, List.length_cons, byteRunesLoop] using ih

/-- Decoding the UTF-8 encoding of a well-formed text yields exactly the
text's runes up to its first U+FFFD. -/
theorem byteRunes_encode (s : List Nat) (h : ∀ r ∈ s, ValidScalar r) :
    byteRunes (encodeRunes s) = untilError s := by
  induction s with
  | nil => rfl
  | cons r s' ih =>
    have hv : ValidScalar r := h r (by simp)
    have hrest : ∀ x ∈ s', ValidScalar x := fun x hx => h x (by simp [hx])
    obtain ⟨b, tail, he⟩ : ∃ b tail, encodeRune r = b :: tail := by
      cases hE : encodeRune r with
      | nil =>
        exfalso
        have := encodeRune_length_pos r
        rw [hE] at this
        simp at this
      | cons b tl => exact ⟨b, tl, rfl⟩
    have hdec := decode_encode r hv (encodeRunes s')
    have hsplit : encodeRunes (r :: s') = b :: (tail ++ encodeRunes s') := by
      show encodeRune r ++ encodeRunes s' = _
      rw [he]
      simp
    have hl : (encodeRune r).length = tail.length + 1 := by rw [he]; simp
    rw [he, List.cons_append] at hdec
    show byteRunesLoop (encodeRunes (r :: s')) 0 = untilError (r :: s')
    rw [hsplit]
    simp only [byteRunesLoop, hdec, hl]
    by_cases hr : r = runeError
    · simp [hr, untilError]
    · simp only [hr, if_neg hr, if_false, untilError, List.length_cons, Nat.add_sub_cancel]
      rw [byteRunesLoop_skip tail (encodeRunes s')]
      have ih' := ih hrest
      unfold byteRunes at ih'
      rw [ih']

/-- Truncation for the one-pass matcher: input past the first U+FFFD is
never examined. -/
theorem onePassMatch_untilError (steps : List Step) (s : List Nat) :
    onePassMatch steps (untilError s) = onePassMatch steps s := by
  induction s generalizing steps with
  | nil => rfl
  | cons r rest ih =>
    by_cases hr : r = runeError
    · subst hr
      cases steps with
      | nil => simp [untilError, onePassMatch]
      | cons st stTail => cases st <;> simp [untilError, onePassMatch]
    · simp only [untilError, if_neg hr]
      cases steps with
      | nil => simp [onePassMatch, hr]
      | cons st stTail => cases st <;> simp [onePassMatch, hr, ih]

/-- Truncation for the fresh-automaton DFA loop. -/
theorem dfaLoopFresh_untilError (list astNexts : List (List Step)) (s : List Nat) :
    dfaLoopFresh list astNexts (untilError s) = dfaLoopFresh list astNexts s := by
  induction s generalizing list astNexts with
  | nil => rfl
  | cons r rest ih =>
    by_cases hr : r = runeError
    · simp [untilError, hr, dfaLoopFresh]
    · simp only [untilError, if_neg hr, dfaLoopFresh, hr, if_false]
      cases dfaStepLoop r (list ++ astNexts) [] astNexts with
      | none => simp
      | some p => simp [ih]

/-- Truncation for a whole match: every strategy sees only the runes
before the first U+FFFD. -/
theorem globMatch_untilError (g : GlobM) (s : List Nat) :
    globMatch g (untilError s) = globMatch g s := by
  unfold globMatch dfaMatchFresh
  by_cases hd : g.useDFA <;> simp only [hd, if_true, if_false]
  · cases hs : g.steps with
    | nil => exact dfaLoopFresh_untilError _ _ s
    | cons st tl => cases st <;> exact dfaLoopFresh_untilError _ _ s
  · exact onePassMatch_untilError g.steps s

/-! ## Claim theorems -/

/-- C10: all three steppers signal end-of-input at the replacement
character U+FFFD, whether it stems from a decode failure or was validly
encoded; consequently every match operation considers only the prefix of
its input strictly before the first U+FFFD, and an input that begins
with U+FFFD is matched as if it were empty. -/
theorem c10_truncation_at_replacement_char :
    (∀ rest : List Nat, stringStep (runeError :: rest) = (runeError, runeError :: rest)) ∧
    (∀ rest : List Nat, readerStep (runeError :: rest) = (runeError, rest)) ∧
    (∀ bs : List Nat, (decodeRune bs).1 = runeError → byteStep bs = (runeError, bs)) ∧
    (∀ (g : GlobM) (s : List Nat), MatchString g s = MatchString g (untilError s)) ∧
    (∀ (g : GlobM) (s : List Nat), MatchReader g s = MatchReader g (untilError s)) ∧
    (∀ (g : GlobM) (bs : List Nat), Match g bs = MatchString g (byteRunes bs)) ∧
    (∀ (g : GlobM) (rest : List Nat),
      MatchString g (runeError :: rest) = MatchString g []) := by
  refine ⟨fun rest => by simp [stringStep], fun rest => rfl,
    fun bs h => by simp [byteStep, h], fun g s => (globMatch_untilError g s).symm,
    fun g s => (globMatch_untilError g s).symm, fun g bs => rfl, fun g rest => ?_⟩
  have h := globMatch_untilError g (runeError :: rest)
  have he : untilError (runeError :: rest) = [] := by simp [untilError]
  rw [he] at h
  exact h.symm

/-- C10 witness: the hypothesis of the byte-stepper conjunct discharged
at the invalid byte 0xFF. -/
theorem c10_truncation_at_replacement_char_witness :
    byteStep [0xFF, 97] = (runeError, [0xFF, 97]) :=
  c10_truncation_at_replacement_char.2.2.1 [0xFF, 97] (by decide)

/-- C1 counterexample: the three operations do not always return the
same boolean, because the pooled memoized automaton is corrupted in
place.  For the compiled pattern "*a*b*c*d", the legal execution in
which the pool retains the automaton across calls (its behaviour
whenever no GC empties it) gives three sequential `MatchString` calls
on "abc", "aba", "abcd" the results false, false, false — the state
memoized while matching "abc" holds an `asteriskNexts` slice of length
3 and capacity 4, the transition for "abc"'s 'c' appends the
d-continuation in place at index 3, and the transition computed for
"aba"'s third 'a' then overwrites that same cell (glob.go:295), so the
cached 'c'-successor loses the d-continuation and "abcd" is refused —
while the same input on a fresh automaton (which `sync.Pool` equally
legally supplies, e.g. to a `Match` call on the UTF-8 encoding of the
same text after the pool was emptied) yields true. -/
theorem c1_cross_representation_counterexample :
    Compile [42, 97, 42, 98, 42, 99, 42, 100] =
      .ok ⟨[Step.asteriskS, Step.runeS 97, Step.asteriskS, Step.runeS 98,
            Step.asteriskS, Step.runeS 99, Step.asteriskS, Step.runeS 100], true⟩ ∧
    MatchStringSeq
      ⟨[Step.asteriskS, Step.runeS 97, Step.asteriskS, Step.runeS 98,
        Step.asteriskS, Step.runeS 99, Step.asteriskS, Step.runeS 100], true⟩
      [[97, 98, 99], [97, 98, 97], [97, 98, 99, 100]] = [false, false, false] ∧
    MatchStringSeq
      ⟨[Step.asteriskS, Step.runeS 97, Step.asteriskS, Step.runeS 98,
        Step.asteriskS, Step.runeS 99, Step.asteriskS, Step.runeS 100], true⟩
      [[97, 98, 99, 100]] = [true] ∧
    Match
      ⟨[Step.asteriskS, Step.runeS 97, Step.asteriskS, Step.runeS 98,
        Step.asteriskS, Step.runeS 99, Step.asteriskS, Step.runeS 100], true⟩
      (encodeRunes [97, 98, 99, 100]) = true ∧
    MatchString
      ⟨[Step.asteriskS, Step.runeS 97, Step.asteriskS, Step.runeS 98,
        Step.asteriskS, Step.runeS 99, Step.asteriskS, Step.runeS 100], true⟩
      [97, 98, 99, 100] = true := by
  refine ⟨rfl, by decide, by decide, by decide, by decide⟩

/-- C1 amended: under the fresh-automaton per-call semantics — each
call's `dfaPool.Get` supplying a new automaton with an empty memo, the
only semantics independent of pool history — the three match operations
agree: on any compiled pattern, matching the UTF-8 byte encoding of a
text, the text itself, and a rune stream over the text yields the same
boolean. -/
theorem c1_cross_representation (p : List Nat) (g : GlobM)
    (hc : Compile p = .ok g) (s : List Nat) (hs : ∀ r ∈ s, ValidScalar r) :
    Match g (encodeRunes s) = MatchString g s ∧
    MatchReader g s = MatchString g s := by
  constructor
  · show globMatch g (byteRunes (encodeRunes s)) = globMatch g s
    rw [byteRunes_encode s hs, globMatch_untilError]
  · rfl

/-- C1 witness: the pattern "a*b" (DFA strategy) on the text "a世b",
whose encoding is multi-byte. -/
theorem c1_cross_representation_witness :
    Match ⟨[Step.runeS 97, Step.asteriskS, Step.runeS 98], true⟩
        (encodeRunes [97, 0x4E16, 98]) =
      MatchString ⟨[Step.runeS 97, Step.asteriskS, Step.runeS 98], true⟩ [97, 0x4E16, 98] ∧
    MatchReader ⟨[Step.runeS 97, Step.asteriskS, Step.runeS 98], true⟩ [97, 0x4E16, 98] =
      MatchString ⟨[Step.runeS 97, Step.asteriskS, Step.runeS 98], true⟩ [97, 0x4E16, 98] :=
  c1_cross_representation [97, 42, 98] _ rfl [97, 0x4E16, 98] (by decide)

/-- C7: the pattern consisting of a single unescaped asterisk compiles
to the one-pass strategy and matches every input, the empty input
included. -/
theorem c7_star_matches_all :
    Compile [42] = .ok ⟨[Step.asteriskS], false⟩ ∧
    ∀ s : List Nat, MatchString ⟨[Step.asteriskS], false⟩ s = true := by
  refine ⟨rfl, fun s => ?_⟩
  show onePassMatch [Step.asteriskS] s = true
  cases s with
  | nil => rfl
  | cons r rest => simp [onePassMatch, acceptState]

theorem noAdjAst_cons_ast (s : List Step) (h1 : headNotAst s = true)
    (h2 : noAdjAst s = true) : noAdjAst (Step.asteriskS :: s) = true := by
  cases s with
  | nil => rfl
  | cons st tl => cases st <;> simp_all [headNotAst, noAdjAst]

theorem noAdjAst_cons_other (st : Step) (s : List Step) (hst : st ≠ Step.asteriskS)
    (h : noAdjAst s = true) : noAdjAst (st :: s) = true := by
  cases st <;> simp_all [noAdjAst] <;> cases s <;> simp_all [noAdjAst]

/-- The collapsing invariant of the compile loop: the emitted chain never
has two adjacent wildcard steps, and while the previously emitted step is
a wildcard (`lastAst`) the chain emitted next never begins with one. -/
theorem compileLoop_noAdjAst (p : List Nat) :
    ∀ (skip : Nat) (esc lastAst : Bool) (steps : List Step) (dfa : Bool),
      compileLoop p skip esc lastAst = .ok (steps, dfa) →
      noAdjAst steps = true ∧ (lastAst = true → headNotAst steps = true) := by
  induction p with
  | nil =>
    intro skip esc lastAst steps dfa h
    simp only [compileLoop, Except.ok.injEq, Prod.mk.injEq] at h
    obtain ⟨h1, _⟩ := h
    subst h1
    exact ⟨rfl, fun _ => rfl⟩
  | cons r rest ih =>
    intro skip esc lastAst steps dfa h
    cases skip with
    | succ k => exact ih k esc lastAst steps dfa h
    | zero =>
      simp only [compileLoop] at h
      split_ifs at h with h1 h2 h3 h4 h5
      · -- backslash: sets the escape flag, emits nothing
        exact ih 0 true lastAst steps dfa h
      · -- asterisk while the previous step is an asterisk: skipped
        have hl : lastAst = true := h3
        subst hl
        exact ih 0 false true steps dfa h
      · -- asterisk emitted
        cases hrec : compileLoop rest 0 false true with
        | error e => rw [hrec] at h; exact absurd h (by simp)
        | ok sd =>
          obtain ⟨s', d'⟩ := sd
          rw [hrec] at h
          simp only [Except.ok.injEq, Prod.mk.injEq] at h
          obtain ⟨hsteps, _⟩ := h
          subst hsteps
          have hih := ih 0 false true s' d' hrec
          refine ⟨noAdjAst_cons_ast s' (hih.2 rfl) hih.1, fun hc => ?_⟩
          exact absurd hc h3
      · -- question mark
        cases hrec : compileLoop rest 0 false false with
        | error e => rw [hrec] at h; exact absurd h (by simp)
        | ok sd =>
          obtain ⟨s', d'⟩ := sd
          rw [hrec] at h
          simp only [Except.ok.injEq, Prod.mk.injEq] at h
          obtain ⟨hsteps, _⟩ := h
          subst hsteps
          have hih := ih 0 false false s' d' hrec
          exact ⟨noAdjAst_cons_other _ s' (by simp) hih.1, fun _ => rfl⟩
      · -- bracket
        cases hi : indexCloseSquare (r :: rest) with
        | none => rw [hi] at h; exact absurd h (by simp)
        | some e =>
          rw [hi] at h
          simp only [] at h
          cases hb : compileBracket ((r :: rest).take (e + 1)) with
          | error err => rw [hb] at h; exact absurd h (by simp)
          | ok b =>
            rw [hb] at h
            cases hrec : compileLoop rest e false false with
            | error err => rw [hrec] at h; exact absurd h (by simp)
            | ok sd =>
              obtain ⟨s', d'⟩ := sd
              rw [hrec] at h
              simp only [Except.ok.injEq, Prod.mk.injEq] at h
              obtain ⟨hsteps, _⟩ := h
              subst hsteps
              have hih := ih e false false s' d' hrec
              exact ⟨noAdjAst_cons_other _ s' (by simp) hih.1, fun _ => rfl⟩
      · -- literal rune
        cases hrec : compileLoop rest 0 false false with
        | error e => rw [hrec] at h; exact absurd h (by simp)
        | ok sd =>
          obtain ⟨s', d'⟩ := sd
          rw [hrec] at h
          simp only [Except.ok.injEq, Prod.mk.injEq] at h
          obtain ⟨hsteps, _⟩ := h
          subst hsteps
          have hih := ih 0 false false s' d' hrec
          exact ⟨noAdjAst_cons_other _ s' (by simp) hih.1, fun _ => rfl⟩

/-- C5: wildcard collapsing: no compiled chain contains two adjacent
asterisk steps; the patterns "a**b" and "a*b" compile to equal matchers,
whose results therefore coincide on every input under all three match
operations. -/
theorem c5_wildcard_collapsing :
    (∀ (p : List Nat) (g : GlobM), Compile p = .ok g → noAdjAst g.steps = true) ∧
    Compile [97, 42, 42, 98] = Compile [97, 42, 98] ∧
    (∀ g1 g2 : GlobM, Compile [97, 42, 42, 98] = .ok g1 → Compile [97, 42, 98] = .ok g2 →
      ∀ (s bs stream : List Nat),
        MatchString g1 s = MatchString g2 s ∧ Match g1 bs = Match g2 bs ∧
        MatchReader g1 stream = MatchReader g2 stream) := by
  refine ⟨fun p g h => ?_, rfl, fun g1 g2 h1 h2 s bs stream => ?_⟩
  · unfold Compile at h
    cases hrec : compileLoop p 0 false false with
    | error e => rw [hrec] at h; exact absurd h (by simp)
    | ok sd =>
      obtain ⟨s', d'⟩ := sd
      rw [hrec] at h
      simp only [Except.ok.injEq] at h
      subst h
      exact (compileLoop_noAdjAst p 0 false false s' d' hrec).1
  · have e1 : g1 = ⟨[Step.runeS 97, Step.asteriskS, Step.runeS 98], true⟩ :=
      (Except.ok.inj h1).symm
    have e2 : g2 = ⟨[Step.runeS 97, Step.asteriskS, Step.runeS 98], true⟩ :=
      (Except.ok.inj h2).symm
    subst e1
    subst e2
    exact ⟨rfl, rfl, rfl⟩

/-- C5 witness: the invariant instantiated on the compiled "*"; the
agreement conjunct instantiated on concrete inputs. -/
theorem c5_wildcard_collapsing_witness :
    noAdjAst [Step.asteriskS] = true ∧
    (MatchString ⟨[Step.runeS 97, Step.asteriskS, Step.runeS 98], true⟩ [97, 99, 98] =
      MatchString ⟨[Step.runeS 97, Step.asteriskS, Step.runeS 98], true⟩ [97, 99, 98]) :=
  ⟨c5_wildcard_collapsing.1 [42] ⟨[Step.asteriskS], false⟩ rfl,
   (c5_wildcard_collapsing.2.2 ⟨[Step.runeS 97, Step.asteriskS, Step.runeS 98], true⟩
      ⟨[Step.runeS 97, Step.asteriskS, Step.runeS 98], true⟩ rfl rfl
      [97, 99, 98] [] []).1⟩

/-- A pattern with no special characters compiles to a chain of literal
rune steps under the one-pass strategy. -/
theorem compileLoop_literal (p : List Nat)
    (h : ∀ c ∈ p, c ≠ 42 ∧ c ≠ 63 ∧ c ≠ 91 ∧ c ≠ 92) :
    compileLoop p 0 false false = .ok (p.map Step.runeS, false) := by
  induction p with
  | nil => rfl
  | cons c rest ih =>
    have hc := h c (by simp)
    have hrest : ∀ x ∈ rest, x ≠ 42 ∧ x ≠ 63 ∧ x ≠ 91 ∧ x ≠ 92 :=
      fun x hx => h x (by simp [hx])
    simp only [compileLoop]
    rw [if_neg (by simp [hc.2.2.2]), if_neg (by simp [hc.1]),
      if_neg (by simp [hc.2.1]), if_neg (by simp [hc.2.2.1])]
    rw [ih hrest]
    rfl

/-- The one-pass matcher on a chain of literal rune steps accepts
exactly the equal input, for inputs and patterns free of U+FFFD. -/
theorem onePassMatch_literal (p : List Nat) :
    ∀ s : List Nat, runeError ∉ p → runeError ∉ s →
      (onePassMatch (p.map Step.runeS) s = true ↔ s = p) := by
  induction p with
  | nil =>
    intro s _ hs
    cases s with
    | nil => simp [onePassMatch, acceptState]
    | cons r rest =>
      have hr : r ≠ runeError := fun e => hs (by simp [e])
      simp [onePassMatch, hr, acceptState]
  | cons t p' ih =>
    intro s hp hs
    have ht : t ≠ runeError := fun e => hp (by simp [e])
    have hp' : runeError ∉ p' := fun e => hp (by simp [e])
    cases s with
    | nil => simp [onePassMatch, acceptState]
    | cons r rest =>
      have hr : r ≠ runeError := fun e => hs (by simp [e])
      have hrest : runeError ∉ rest := fun e => hs (by simp [e])
      simp only [List.map_cons, onePassMatch, if_neg hr]
      by_cases e : t = r
      · subst e
        simp [ih rest hp' hrest]
      · simp only [if_neg e]
        constructor
        · intro hf; exact absurd hf (by simp)
        · intro hf
          injection hf with h1 _
          exact absurd h1.symm e

/-- C3 counterexample: the pattern "a" has no special characters, yet
its matcher accepts the two-character input "a�", which is not
equal to the pattern: the claimed equivalence with string equality fails
at inputs containing U+FFFD. -/
theorem c3_literal_counterexample :
    Compile [97] = .ok ⟨[Step.runeS 97], false⟩ ∧
    MatchString ⟨[Step.runeS 97], false⟩ [97, 0xFFFD] = true ∧
    ([97, 0xFFFD] : List Nat) ≠ [97] :=
  ⟨rfl, rfl, by decide⟩

/-- C3 amended: for a pattern with no special characters and no U+FFFD,
the compiled matcher accepts exactly the inputs equal to the pattern
among inputs free of U+FFFD (matching truncates any input at its first
U+FFFD). -/
theorem c3_literal_equality (p : List Nat)
    (hspec : ∀ c ∈ p, c ≠ 42 ∧ c ≠ 63 ∧ c ≠ 91 ∧ c ≠ 92) (hp : runeError ∉ p) :
    Compile p = .ok ⟨p.map Step.runeS, false⟩ ∧
    ∀ s : List Nat, runeError ∉ s →
      (MatchString ⟨p.map Step.runeS, false⟩ s = true ↔ s = p) := by
  refine ⟨?_, fun s hs => onePassMatch_literal p s hp hs⟩
  unfold Compile
  rw [compileLoop_literal p hspec]

/-- C3 witness: the amended claim instantiated at the pattern "ab" and
the inputs "ab" and "b". -/
theorem c3_literal_equality_witness :
    (Compile [97, 98] = .ok ⟨[Step.runeS 97, Step.runeS 98], false⟩) ∧
    (MatchString ⟨[Step.runeS 97, Step.runeS 98], false⟩ [97, 98] = true ↔
      ([97, 98] : List Nat) = [97, 98]) ∧
    (MatchString ⟨[Step.runeS 97, Step.runeS 98], false⟩ [98] = true ↔
      ([98] : List Nat) = [97, 98]) :=
  ⟨(c3_literal_equality [97, 98] (by decide) (by decide)).1,
   (c3_literal_equality [97, 98] (by decide) (by decide)).2 [97, 98] (by decide),
   (c3_literal_equality [97, 98] (by decide) (by decide)).2 [98] (by decide)⟩

/-- C6 counterexample: a pattern ending in a lone unescaped backslash
does not require a literal backslash at that position: compiling "a\\"
yields the same matcher as "a", which accepts "a" (without any
backslash) and rejects "a\\". -/
theorem c6_trailing_backslash_counterexample :
    Compile [97, 92] = .ok ⟨[Step.runeS 97], false⟩ ∧
    MatchString ⟨[Step.runeS 97], false⟩ [97] = true ∧
    MatchString ⟨[Step.runeS 97], false⟩ [97, 92] = false :=
  ⟨rfl, rfl, rfl⟩

/-- C6 amended: a backslash forces the following character to be a
literal step whatever it is — in particular "\\*" matches "*" and not
"a" — while a trailing lone backslash escapes nothing and is dropped:
"a\\" compiles exactly as "a", accepting "a" and rejecting "a\\". -/
theorem c6_escape_semantics :
    (∀ c : Nat, Compile [92, c] = .ok ⟨[Step.runeS c], false⟩) ∧
    MatchString ⟨[Step.runeS 42], false⟩ [42] = true ∧
    MatchString ⟨[Step.runeS 42], false⟩ [97] = false ∧
    Compile [97, 92] = Compile [97] ∧
    MatchString ⟨[Step.runeS 97], false⟩ [97] = true ∧
    MatchString ⟨[Step.runeS 97], false⟩ [97, 92] = false := by
  refine ⟨fun c => ?_, rfl, rfl, rfl, rfl, rfl⟩
  simp [Compile, compileLoop]

/-- C6 witness: the escaped-character conjunct instantiated at the
escaped bracket "\\[". -/
theorem c6_escape_semantics_witness :
    Compile [92, 91] = .ok ⟨[Step.runeS 91], false⟩ :=
  c6_escape_semantics.1 91

/-- C9 counterexample: "?" on the two-character input "a�" returns
true although the input length is two, and on the single-character input
"�" returns false although the input length is one. -/
theorem c9_question_counterexample :
    Compile [63] = .ok ⟨[Step.questionS], false⟩ ∧
    MatchString ⟨[Step.questionS], false⟩ [97, 0xFFFD] = true ∧
    ([97, 0xFFFD] : List Nat).length ≠ 1 ∧
    MatchString ⟨[Step.questionS], false⟩ [0xFFFD] = false ∧
    ([0xFFFD] : List Nat).length = 1 :=
  ⟨rfl, rfl, by decide, rfl, rfl⟩

/-- C9 amended: "?" accepts exactly the inputs whose prefix before the
first U+FFFD — the part of the input the stepper delivers — has exactly
one character. -/
theorem c9_question_single_char :
    Compile [63] = .ok ⟨[Step.questionS], false⟩ ∧
    ∀ s : List Nat,
      (MatchString ⟨[Step.questionS], false⟩ s = true ↔ (untilError s).length = 1) := by
  refine ⟨rfl, fun s => ?_⟩
  show onePassMatch [Step.questionS] s = true ↔ _
  cases s with
  | nil => simp [onePassMatch, acceptState, untilError]
  | cons r rest =>
    by_cases hr : r = runeError
    · subst hr
      simp [onePassMatch, acceptState, untilError]
    · cases rest with
      | nil => simp [onePassMatch, hr, acceptState, untilError]
      | cons r2 rest2 =>
        by_cases hr2 : r2 = runeError
        · subst hr2
          simp [onePassMatch, hr, acceptState, untilError]
        · simp [onePassMatch, hr, hr2, acceptState, untilError]

theorem matchRunesLoop_spec (nm : Bool) (r : Nat) (l : List Nat) :
    matchRunesLoop nm r l = xor nm (l.any (fun br => br == r)) := by
  induction l with
  | nil => simp [matchRunesLoop]
  | cons br rest ih =>
    by_cases e : br = r
    · simp [matchRunesLoop, e, Bool.xor_comm]
    · simp [matchRunesLoop, e, ih]

theorem matchRangesLoop_spec (nm : Bool) (r : Nat) (rs : List Nat) (crs : List CharRange) :
    matchRangesLoop nm r rs crs =
      xor nm ((crs.any fun cr => decide (cr.startPoint ≤ r) && decide (r ≤ cr.endPoint)) ||
        rs.any (fun br => br == r)) := by
  induction crs with
  | nil => simp [matchRangesLoop, matchRunesLoop_spec]
  | cons cr rest ih =>
    by_cases e : cr.startPoint ≤ r ∧ cr.endPoint ≥ r
    · simp [matchRangesLoop, e, e.1, e.2, Bool.xor_comm]
    · have e1 : ¬(decide (cr.startPoint ≤ r) && decide (r ≤ cr.endPoint)) = true := by
        simp only [Bool.and_eq_true, decide_eq_true_eq]
        exact fun hc => e ⟨hc.1, hc.2⟩
      simp only [matchRangesLoop, if_neg e, ih, List.any_cons]
      simp only [Bool.not_eq_true] at e1
      rw [e1]
      simp

/-- C8: the compiled bracket predicate is the negation flag XORed with
membership in any stored inclusive range or in the explicit member set;
in particular, with the negation flag set and no range or member
matching, it returns true. -/
theorem c8_bracket_predicate :
    (∀ (b : Bracket) (r : Nat),
      b.match r = xor b.nonMatch
        ((b.charRanges.any fun cr => decide (cr.startPoint ≤ r) && decide (r ≤ cr.endPoint)) ||
          b.runes.any (fun br => br == r))) ∧
    (∀ (b : Bracket) (r : Nat), b.nonMatch = true →
      (b.charRanges.any fun cr =>
        decide (cr.startPoint ≤ r) && decide (r ≤ cr.endPoint)) = false →
      b.runes.any (fun br => br == r) = false →
      b.match r = true) := by
  refine ⟨fun b r => matchRangesLoop_spec b.nonMatch r b.runes b.charRanges,
    fun b r hn h1 h2 => ?_⟩
  show matchRangesLoop b.nonMatch r b.runes b.charRanges = true
  rw [matchRangesLoop_spec b.nonMatch r b.runes b.charRanges, hn, h1, h2]
  rfl

/-- C8 witness: a negated bracket with one range and one member rune,
matching a character outside both. -/
theorem c8_bracket_predicate_witness :
    (⟨true, [⟨97, 122⟩], [48]⟩ : Bracket).match 33 = true :=
  c8_bracket_predicate.2 ⟨true, [⟨97, 122⟩], [48]⟩ 33 rfl (by decide) (by decide)

/-- C4 (code bug): the pattern "[a]" contains an unescaped '[' with a
matching unescaped closing ']' and no named class, so per the claim it
must compile; but when the closing ']' is the final character,
`indexCloseSquare` falls through to `return -1` (glob.go:251) without
returning the recorded `matchIndex`, so `Compile` reports the
no-matching-']' error.  Appending any character ("[a]b") makes the same
bracket compile. -/
theorem c4_trailing_bracket_bug :
    indexCloseSquare [91, 97, 93] = none ∧
    Compile [91, 97, 93] = .error .unterminatedBracket ∧
    Compile [91, 97, 93, 98] =
      .ok ⟨[Step.regexS ⟨false, [], [97]⟩, Step.runeS 98], false⟩ :=
  ⟨rfl, rfl, rfl⟩

/-- C2 (code bug): `Match` and `MatchReader` return their pooled
stepper to `stringStepPool` (glob.go:327, 353).  After either call, the
next `MatchString` draws that object from `stringStepPool` and its
type assertion `.(*stringStep)` (glob.go:337) panics.  Matching on
malformed input alone indeed yields a definite boolean, but the claimed
freedom from panics across call sequences fails. -/
theorem c2_pool_type_assertion_panic :
    Compile [97] = .ok ⟨[Step.runeS 97], false⟩ ∧
    MatchEff ⟨[Step.runeS 97], false⟩ [97] [] = .ok true [.byteO] ∧
    MatchStringEff ⟨[Step.runeS 97], false⟩ [97] [.byteO] = .panicked ∧
    MatchReaderEff ⟨[Step.runeS 97], false⟩ [97] [] = .ok true [.readerO] ∧
    MatchStringEff ⟨[Step.runeS 97], false⟩ [97] [.readerO] = .panicked :=
  ⟨rfl, rfl, rfl, rfl, rfl⟩

end Glob
